import Mathlib

/-!
Shallow embedding of postpic's core data-handling module
(src/postpic/datahandling.py): the Axis and Field classes and the
operations the specification talks about.

Modelling conventions:
* numpy float64 values are modelled as exact rationals (ℚ); the claims are
  about structural bookkeeping and exact arithmetic identities, none about
  floating-point rounding.
* an N-dimensional numpy array is modelled as a shape (List ℕ) together
  with a total data function on multi-indices (List ℕ); numpy basic
  slicing, elementwise arithmetic and transposition are modelled on it.
* Python exceptions (ValueError, TypeError, IndexError, AssertionError)
  are modelled with Except String.
* the Axis._linear cache is not modelled: every mutation of grid_node in
  the source goes through the grid_node setter, which invalidates the
  cache, so the cached islinear() is observationally equal to direct
  recomputation.
* out-of-range list indexing that Python would turn into an IndexError is
  modelled with Except where a claim's behaviour depends on it, and with
  total getD/set (whose out-of-range cases are unreachable under the
  claims' well-formedness hypotheses) elsewhere.
* the discrete Fourier transform's numerical values are irrational and
  cannot be represented in this exact embedding; np.fft.rfft2 is modelled
  at the level of its output shape (the real transform halves the last
  axis listed in its axes argument: n becomes n / 2 + 1), which is all the
  formalised claims depend on.  No claim refers to the matrix values
  produced by fft.
-/

namespace Postpic

/-- A numpy ndarray: a shape together with a total data function on
multi-indices.  Reads outside the shape are junk values, never relied on. -/
structure Mat where
  shape : List ℕ
  data : List ℕ → ℚ

instance : Inhabited Mat := ⟨⟨[], fun _ => 0⟩⟩

/-- Reindexing map of np.squeeze: given the original shape and an index
into the squeezed array, rebuild the index into the original array by
inserting 0 at every dimension of length 1. -/
def unsqueezeIdx : List ℕ → List ℕ → List ℕ
  | [], _ => []
  | d :: rest, idx =>
      if d = 1 then 0 :: unsqueezeIdx rest idx
      else idx.headD 0 :: unsqueezeIdx rest idx.tail

/-- np.squeeze: remove every dimension of length 1. -/
def Mat.squeeze (m : Mat) : Mat :=
  ⟨m.shape.filter (fun d => d ≠ 1), fun idx => m.data (unsqueezeIdx m.shape idx)⟩

/-- Length of the basic slice start:stop:step (positive step) of a
dimension of length n, as numpy computes it. -/
def sliceLen (start stop step n : ℕ) : ℕ :=
  ((if stop ≤ n then stop else n) - start + step - 1) / step

/-- numpy basic slicing m[..., start:stop:step, ...] along one axis. -/
def ndslice (m : Mat) (axis start stop step : ℕ) : Mat :=
  ⟨m.shape.set axis (sliceLen start stop step (m.shape.getD axis 0)),
   fun idx => m.data (idx.set axis (start + step * idx.getD axis 0))⟩

/-- Elementwise sum of two arrays.  numpy broadcasting is not modelled:
in the source this operation is only reached with equal shapes. -/
def matAdd (a b : Mat) : Mat := ⟨a.shape, fun idx => a.data idx + b.data idx⟩

/-- Elementwise difference. -/
def matSub (a b : Mat) : Mat := ⟨a.shape, fun idx => a.data idx - b.data idx⟩

/-- Elementwise product. -/
def matMul (a b : Mat) : Mat := ⟨a.shape, fun idx => a.data idx * b.data idx⟩

/-- Elementwise quotient.  Division by zero is ℚ-junk (0); no claim
divides by zero. -/
def matDiv (a b : Mat) : Mat := ⟨a.shape, fun idx => a.data idx / b.data idx⟩

/-- Array plus scalar. -/
def matAddS (a : Mat) (c : ℚ) : Mat := ⟨a.shape, fun idx => a.data idx + c⟩

/-- Array minus scalar. -/
def matSubS (a : Mat) (c : ℚ) : Mat := ⟨a.shape, fun idx => a.data idx - c⟩

/-- Array times scalar. -/
def matMulS (a : Mat) (c : ℚ) : Mat := ⟨a.shape, fun idx => a.data idx * c⟩

/-- Array divided by scalar. -/
def matDivS (a : Mat) (c : ℚ) : Mat := ⟨a.shape, fun idx => a.data idx / c⟩

/-- Array raised to an integer exponent, elementwise. -/
def matPowZ (a : Mat) (z : ℤ) : Mat := ⟨a.shape, fun idx => a.data idx ^ z⟩

/-- np.transpose / .T: reverse the shape and the index order. -/
def Mat.transpose (m : Mat) : Mat :=
  ⟨m.shape.reverse, fun idx => m.data idx.reverse⟩

/-- Axis: one coordinate dimension.  grid_node holds the cell-boundary
positions (N cells have N+1 nodes). -/
structure Axis where
  name : String := ""
  unit : String := ""
  grid_node : List ℚ := []

instance : Inhabited Axis := ⟨{}⟩

/-- Midpoints of consecutive entries: grid from grid_node, i.e.
np.convolve(grid_node, np.ones(2)/2, mode=valid). -/
def mids (l : List ℚ) : List ℚ :=
  List.zipWith (fun a b => (a + b) / 2) l l.tail

/-- np.diff: consecutive differences. -/
def diffsQ (l : List ℚ) : List ℚ :=
  List.zipWith (fun a b => b - a) l l.tail

/-- Arithmetic mean of a list (np.mean). -/
def meanQ (l : List ℚ) : ℚ := l.sum / l.length

/-- Population variance of a list (np.var). -/
def varQ (l : List ℚ) : ℚ :=
  ((l.map (fun x => (x - meanQ l) ^ 2)).sum) / l.length

/-- Number of grid cells: len(axis) == max(0, len(grid_node) - 1),
via truncated ℕ subtraction. -/
def Axis.len (a : Axis) : ℕ := a.grid_node.length - 1

/-- Axis.islinear: np.var(np.diff(grid_node)) < 1e-7.  With fewer than two
nodes np.diff is empty and np.var of it is NaN, so the comparison is
False. -/
def Axis.islinear (a : Axis) : Bool :=
  match diffsQ a.grid_node with
  | [] => false
  | d => decide (varQ d < 1 / 10000000)

/-- The grid_node setter.  Its only check, that the assigned value is a
one-dimensional array, always passes in this embedding because the model
assigns 1-D lists of rationals; the TypeError branch is unreachable. -/
def Axis.setGridNode (a : Axis) (l : List ℚ) : Axis := { a with grid_node := l }

/-- Axis.grid getter. -/
def Axis.grid (a : Axis) : List ℚ := mids a.grid_node

/-- Tail part of np.convolve(g, np.ones(2)/2, mode=full) after the first
output element: running midpoints followed by last/2. -/
def convAux (x : ℚ) : List ℚ → List ℚ
  | [] => [x / 2]
  | b :: rest => (x + b) / 2 :: convAux b rest

/-- np.convolve(g, np.ones(2)/2, mode=full): for g = [g0, ..., gN] this is
[g0/2, (g0+g1)/2, ..., (g(N-1)+gN)/2, gN/2].  np.convolve raises on an
empty input; the [] case below is never reached under the claims'
nonemptiness hypotheses. -/
def convFull : List ℚ → List ℚ
  | [] => []
  | g0 :: rest => g0 / 2 :: convAux g0 rest

/-- The node list built by the Axis.grid setter: the full convolution with
both endpoint entries fixed up in numpy's in-place order (gn[0] first,
then gn[-1], the latter reading the possibly already-updated gn[-2]). -/
def gridSet (g : List ℚ) : List ℚ :=
  let gn := convFull g
  let g0 := g.headD 0
  let gl := g.getLastD 0
  let gn1 := gn.set 0 (g0 + (g0 - gn.getD 1 0))
  gn1.set (gn1.length - 1) (gl + (gl - gn1.getD (gn1.length - 2) 0))

/-- Axis.grid setter: rebuild grid_node from cell centers and assign it
through the grid_node setter. -/
def Axis.setGrid (a : Axis) (g : List ℚ) : Axis := a.setGridNode (gridSet g)

/-- np.linspace a b m: m evenly spaced samples from a to b inclusive. -/
def linspaceQ (a b : ℚ) (m : ℕ) : List ℚ :=
  if m = 0 then []
  else if m = 1 then [a]
  else (List.range m).map (fun (i : ℕ) => a + (b - a) * (i : ℚ) / ((m : ℚ) - 1))

/-- Axis.setextent for a 2-element extent: a linear grid with n cells,
hence n+1 nodes.  The special case of an integer extent with n == 1 in the
source takes a scalar, not a 2-element extent, and is not needed by any
claim. -/
def Axis.setextent (a : Axis) (e : ℚ × ℚ) (n : ℕ) : Axis :=
  a.setGridNode (linspaceQ e.1 e.2 (n + 1))

/-- Axis.cutout: np.sort of the 2-element newextent, then the list
comprehension keeping the nodes inside the sorted bounds, assigned through
the grid_node setter. -/
def Axis.cutout (a : Axis) (newextent : ℚ × ℚ) : Axis :=
  let nex : ℚ × ℚ :=
    if newextent.1 ≤ newextent.2 then newextent else (newextent.2, newextent.1)
  a.setGridNode (a.grid_node.filter (fun gn => nex.1 ≤ gn ∧ gn ≤ nex.2))

/-- Python slicing l[::2]: every second element, starting at index 0. -/
def everyOther {α : Type} : List α → List α
  | [] => []
  | [a] => [a]
  | a :: _ :: rest => a :: everyOther rest

/-- Axis.half_resolution: grid_node[::2] assigned through the setter. -/
def Axis.half_resolution (a : Axis) : Axis :=
  a.setGridNode (everyOther a.grid_node)

/-- Field: a data matrix plus one Axis per matrix dimension.  The
presentation-only attributes infostring, infos and _label are not
modelled; no claim mentions them. -/
structure Field where
  matrix : Mat
  name : String := ""
  unit : String := ""
  axes : List Axis := []

instance : Inhabited Field := ⟨{ matrix := default }⟩

/-- Field.dimensions: the array rank, or -1 when the array has no
elements. -/
def Field.dimensions (f : Field) : ℤ :=
  if f.matrix.shape.prod = 0 then -1 else f.matrix.shape.length

/-- Modelled from the spec: helper.axesidentify (the helper module is not
in src/) resolves a dynamic axis identifier; on integer identifiers, which
are the only ones the claims use, it is the identity. -/
def axesidentify (n : ℕ) : ℕ := n

/-- Field._addaxisobj: append the axis object after checking that its cell
count matches the next free matrix dimension.  Accessing a shape entry
beyond the rank is a Python IndexError. -/
def Field.addaxisobj (f : Field) (axisobj : Axis) : Except String Field :=
  match f.matrix.shape.get? f.axes.length with
  | none => .error "IndexError"
  | some matrixpts =>
      if matrixpts = axisobj.len then .ok { f with axes := f.axes ++ [axisobj] }
      else .error "Number of Grid points in next missing Data Dimension has to match number of grid points of new axis"

/-- Field._addaxisnodes: build an axis from explicit grid nodes and append
it. -/
def Field.addaxisnodes (f : Field) (gn : List ℚ) (nm : String) : Except String Field :=
  f.addaxisobj (Axis.setGridNode { name := nm } gn)

/-- Field._addaxis: build a linear axis spanning the extent with as many
cells as the next matrix dimension, and append it. -/
def Field.addaxis (f : Field) (e : ℚ × ℚ) (nm : String) : Except String Field :=
  match f.matrix.shape.get? f.axes.length with
  | none => .error "IndexError"
  | some matrixpts => f.addaxisobj (Axis.setextent { name := nm } e matrixpts)

/-- One axis-building step of Field.__init__: explicit edges are added as
grid nodes; otherwise a default (0, 1) linear axis is added when the
dimension is present (rank above the limit 0, 1 or 2 for x, y, z). -/
def Field.edgeStep (edges : Option (List ℚ)) (nm : String) (limit : ℤ)
    (f : Field) : Except String Field :=
  match edges with
  | some e => f.addaxisnodes e nm
  | none => if f.dimensions > limit then f.addaxis (0, 1) nm else pure f

/-- Field.__init__: when xedges is given the matrix is stored as passed;
otherwise it is squeezed.  Axes are then built in x, y, z order by
edgeStep. -/
def Field.init (matrix : Mat) (xedges yedges zedges : Option (List ℚ))
    (name unit : String) : Except String Field :=
  let m := if xedges.isSome then matrix else matrix.squeeze
  let f0 : Field := { matrix := m, name := name, unit := unit, axes := [] }
  Field.edgeStep xedges "x" 0 f0 >>= Field.edgeStep yedges "y" 1 >>=
    Field.edgeStep zedges "z" 2

/-- Field.half_resolution: halve the axis (drop every second node) and
pairwise-average the matrix along that dimension, ignoring the last slice
when the dimension length is odd. -/
def Field.half_resolution (f : Field) (axis : ℕ) : Field :=
  let a := axesidentify axis
  let axes1 := f.axes.set a (f.axes.getD a default).half_resolution
  let dimlen := f.matrix.shape.getD a 0
  let lastpt := dimlen - dimlen % 2
  let s0 := ndslice f.matrix a 0 lastpt 2
  let s1 := ndslice f.matrix a 1 lastpt 2
  { f with axes := axes1, matrix := matDivS (matAdd s0 s1) 2 }

/-- Index of the first axis longer than maxlen: the scan of the for loop
in Field.autoreduce. -/
def findOver (axs : List Axis) (maxlen : ℕ) : Option ℕ :=
  match axs with
  | [] => none
  | ax :: rest =>
      if maxlen < ax.len then some 0 else (findOver rest maxlen).map (· + 1)

/-- Total cell count over all axes; a strictly decreasing measure for the
autoreduce recursion. -/
def Field.sumLens (f : Field) : ℕ := (f.axes.map Axis.len).sum

/-- Fuelled unfolding of Field.autoreduce's recursion: find the first axis
exceeding maxlen, halve it, restart the scan. -/
def Field.autoreduceFuel : ℕ → Field → ℕ → Field
  | 0, f, _ => f
  | fuel + 1, f, maxlen =>
      match findOver f.axes maxlen with
      | none => f
      | some i => Field.autoreduceFuel fuel (f.half_resolution i) maxlen

/-- Field.autoreduce: sumLens strictly decreases at every recursive call,
so sumLens + 1 units of fuel always suffice (proved below). -/
def Field.autoreduce (f : Field) (maxlen : ℕ) : Field :=
  Field.autoreduceFuel (f.sumLens + 1) f maxlen

/-- np.roll((0, 1), axes): the identity permutation for an even shift and
the swap for an odd one. -/
def rollAxes (axes : ℕ) : List ℕ :=
  if axes % 2 = 0 then [0, 1] else [1, 0]

/-- Shape effect of 0.5 * epsilon0 * abs(np.fft.fftshift(np.fft.rfft2(m,
axes=rfftaxes), axes=axes))**2: rfft2 performs the real transform over the
last axis listed in rfftaxes, shrinking that dimension from n to
n / 2 + 1; fftshift, abs, squaring and the scalar factor preserve the
shape.  The transform's numerical values are irrational and are not
modelled (see the header); no claim reads them. -/
def fftMat (m : Mat) (rfftaxes : List ℕ) : Mat :=
  let last := rfftaxes.getLastD 0
  ⟨m.shape.set last (m.shape.getD last 0 / 2 + 1), fun _ => 0⟩

/-- The per-axis body of the loop in Field._fft: only a linear axis may be
transformed; the axis is renamed to normalized wavenumber, its unit
cleared, and its extent replaced by the np.fft.rfftfreq bins (symmetric
for the shifted axis given by the axes argument, one-sided otherwise).
np.fft.rfftfreq(n, d) is [0, 1/(n d), ..., (n/2)/(n d)], of length
n / 2 + 1; only its first and last entries are read.  islinear = true
guarantees at least two grid nodes, so reading grid_node[1] is safe. -/
def fftAxis (ax : Axis) (axid axes : ℕ) : Except String Axis :=
  if ax.islinear then
    let ax1 : Axis := { ax with name := "$k_" ++ ax.name ++ " / k_0$", unit := "" }
    let dx := ax.grid_node.getD 1 0 - ax.grid_node.getD 0 0
    let n := ax.grid_node.length
    let fmax : ℚ := (n / 2 : ℕ) / (n * dx)
    let fe : ℚ × ℚ := if axid = axes then (-fmax / 2, fmax / 2) else (0, fmax)
    .ok (ax1.setextent fe (n / 2 + 1))
  else .error "Specified axis is not linear."

/-- One pass of the axis loop in Field._fft: read ret.axes[axid] (a Python
IndexError beyond the list), transform it with fftAxis, write it back. -/
def fftVStep (axesP : ℕ) (axs : List Axis) (axid : ℕ) : Except String (List Axis) :=
  match axs.get? axid with
  | none => .error "IndexError"
  | some ax => (fftAxis ax axid axesP).map (fun ax1 => axs.set axid ax1)

/-- Field._fft (value level; the aliasing behaviour is modelled separately
in the store semantics below): k0 must be given, the field must be 2-D,
the matrix is replaced by the shape-level rfft2 result, and both axes are
rewritten by fftAxis in the order given by np.roll((0,1), axes). -/
def Field.fftV (f : Field) (k0 : Option ℚ) (axes : ℕ) : Except String Field :=
  if k0.isNone then .error "No k0 specified."
  else if f.dimensions ≠ 2 then .error "This function is only available for 2D fields."
  else
    ((rollAxes axes).foldlM (fftVStep axes) f.axes).map
      (fun axes1 =>
        { f with matrix := fftMat f.matrix (rollAxes axes), unit := "?",
                 name := "FFT of " ++ f.name, axes := axes1 })

/-- The Field/Axis coherence invariant of the spec: every axis cell count
equals the corresponding matrix dimension length. -/
def Field.wf (f : Field) : Prop :=
  ∀ i, i < f.axes.length → (f.axes.getD i default).len = f.matrix.shape.getD i 0

instance (f : Field) : Decidable f.wf := Nat.decidableBallLT _ _

/-! ### Store semantics for aliasing and in-place mutation

Python Fields reference their ndarray and Axis objects; copy.deepcopy
allocates fresh objects.  To state the deep-copy/no-aliasing claims, the
binary operators, fft and topolar are also modelled against an explicit
object store: arrays and axes live at numeric ids, a Field holds ids, and
mutation is a store update.  The per-object computations reuse the value
level definitions above. -/

/-- The object store: all allocated arrays and axis objects, addressed by
list position. -/
structure Store where
  arrs : List Mat
  axs : List Axis

/-- A Field object's attributes: references into the store plus its own
name and unit strings. -/
structure FieldRef where
  matrix : ℕ
  axes : List ℕ
  name : String := ""
  unit : String := ""

def Store.getArr (s : Store) (i : ℕ) : Mat := s.arrs.getD i default

def Store.getAx (s : Store) (i : ℕ) : Axis := s.axs.getD i default

def Store.setArr (s : Store) (i : ℕ) (v : Mat) : Store :=
  { s with arrs := s.arrs.set i v }

def Store.setAx (s : Store) (i : ℕ) (v : Axis) : Store :=
  { s with axs := s.axs.set i v }

/-- Allocate a fresh array object. -/
def Store.allocArr (s : Store) (v : Mat) : Store × ℕ :=
  ({ s with arrs := s.arrs ++ [v] }, s.arrs.length)

/-- Allocate fresh axis objects for a list of values, returning their ids
in order. -/
def Store.allocAxs (s : Store) (vs : List Axis) : Store × List ℕ :=
  ({ s with axs := s.axs ++ vs },
   (List.range vs.length).map (fun i => s.axs.length + i))

/-- copy.deepcopy of a Field: fresh array object and fresh axis objects
holding copies of the referenced values. -/
def deepcopyF (s : Store) (f : FieldRef) : Store × FieldRef :=
  let p1 := s.allocArr (s.getArr f.matrix)
  let p2 := p1.1.allocAxs (f.axes.map (fun aid => s.getAx aid))
  (p2.1, { f with matrix := p1.2, axes := p2.2 })

/-- Field.dimensions read through the store. -/
def FieldRef.dims (s : Store) (f : FieldRef) : ℤ :=
  if (s.getArr f.matrix).shape.prod = 0 then -1 else (s.getArr f.matrix).shape.length

/-- The second operand of a binary operator: another Field or a scalar. -/
def Operand : Type := FieldRef ⊕ ℚ

/-- Field.__iadd__: in-place elementwise sum into self's array; a Field
operand also concatenates the operator description into name. -/
def iaddF (s : Store) (f : FieldRef) (other : Operand) : Store × FieldRef :=
  match other with
  | .inl o =>
      (s.setArr f.matrix (matAdd (s.getArr f.matrix) (s.getArr o.matrix)),
       { f with name := f.name ++ " + " ++ o.name })
  | .inr c => (s.setArr f.matrix (matAddS (s.getArr f.matrix) c), f)

/-- Field.__add__: deep copy, then the in-place sum on the copy. -/
def addF (s : Store) (f : FieldRef) (other : Operand) : Store × FieldRef :=
  let p := deepcopyF s f
  iaddF p.1 p.2 other

/-- Field.__isub__. -/
def isubF (s : Store) (f : FieldRef) (other : Operand) : Store × FieldRef :=
  match other with
  | .inl o =>
      (s.setArr f.matrix (matSub (s.getArr f.matrix) (s.getArr o.matrix)),
       { f with name := f.name ++ " - " ++ o.name })
  | .inr c => (s.setArr f.matrix (matSubS (s.getArr f.matrix) c), f)

/-- Field.__sub__. -/
def subF (s : Store) (f : FieldRef) (other : Operand) : Store × FieldRef :=
  let p := deepcopyF s f
  isubF p.1 p.2 other

/-- Field.__imul__. -/
def imulF (s : Store) (f : FieldRef) (other : Operand) : Store × FieldRef :=
  match other with
  | .inl o =>
      (s.setArr f.matrix (matMul (s.getArr f.matrix) (s.getArr o.matrix)),
       { f with name := f.name ++ " * " ++ o.name })
  | .inr c => (s.setArr f.matrix (matMulS (s.getArr f.matrix) c), f)

/-- Field.__mul__. -/
def mulF (s : Store) (f : FieldRef) (other : Operand) : Store × FieldRef :=
  let p := deepcopyF s f
  imulF p.1 p.2 other

/-- Field.__itruediv__ (and its python-2 alias __idiv__). -/
def idivF (s : Store) (f : FieldRef) (other : Operand) : Store × FieldRef :=
  match other with
  | .inl o =>
      (s.setArr f.matrix (matDiv (s.getArr f.matrix) (s.getArr o.matrix)),
       { f with name := f.name ++ " / " ++ o.name })
  | .inr c => (s.setArr f.matrix (matDivS (s.getArr f.matrix) c), f)

/-- Field.__truediv__ (and its python-2 alias __div__). -/
def divF (s : Store) (f : FieldRef) (other : Operand) : Store × FieldRef :=
  let p := deepcopyF s f
  idivF p.1 p.2 other

/-- Field.__pow__: deep copy, then rebind the copy's matrix attribute to a
freshly allocated array holding self.matrix ** other.  There is no
in-place variant and the name is left unchanged. -/
def powF (s : Store) (f : FieldRef) (z : ℤ) : Store × FieldRef :=
  let p := deepcopyF s f
  let q := p.1.allocArr (matPowZ (s.getArr f.matrix) z)
  (q.1, { p.2 with matrix := q.2 })

/-- One pass of the axis loop in Field._fft against the store: the copied
Field's axis object at position axid is read, transformed and mutated in
place. -/
def fftFStep (axesP : ℕ) (retAxes : List ℕ) (st : Store) (axid : ℕ) :
    Except String Store :=
  match retAxes.get? axid with
  | none => .error "IndexError"
  | some aid => (fftAxis (st.getAx aid) axid axesP).map (fun ax1 => st.setAx aid ax1)

/-- Field._fft against the store: deep copy, rebind the copy's matrix to
the freshly allocated transform result, set name and unit, then rewrite
both copied axis objects in place in the order of np.roll((0,1), axes). -/
def fftF (s : Store) (f : FieldRef) (k0 : Option ℚ) (axes : ℕ) :
    Except String (Store × FieldRef) :=
  if k0.isNone then .error "No k0 specified."
  else if FieldRef.dims s f ≠ 2 then .error "This function is only available for 2D fields."
  else
    let p := deepcopyF s f
    let q := p.1.allocArr (fftMat (s.getArr f.matrix) (rollAxes axes))
    let ret : FieldRef :=
      { p.2 with matrix := q.2, unit := "?", name := "FFT of " ++ f.name }
    ((rollAxes axes).foldlM (fftFStep axes ret.axes) q.1).map (fun s2 => (s2, ret))

/-- Modelled from the spec: helper.transfromxy2polar (the helper module is
not in src/) resamples a 2-D Cartesian array onto a polar grid of the
requested shape by interpolation.  Its interpolated values are not needed
by any claim, only the shape of its output; values are modelled as 0. -/
def transfromxy2polar (m : Mat) (extent newextent : List ℚ) (shape : ℕ × ℕ) : Mat :=
  ⟨[shape.1, shape.2], fun _ => 0⟩

/-- np.ravel([a.extent for a in self.axes]) as read by topolar: first and
last grid node of every axis.  (With fewer than two nodes the source
yields None and would fail further on; the value only feeds the modelled
interpolation helper, which ignores it.) -/
def extentList (s : Store) (f : FieldRef) : List ℚ :=
  f.axes.flatMap (fun aid =>
    [(s.getAx aid).grid_node.headD 0, (s.getAx aid).grid_node.getLastD 0])

/-- One pass of the loop in the Field.extent setter against the store:
axis object i is rebuilt linearly over its slice of the new extent with as
many cells as matrix dimension i. -/
def setExtentStep (f : FieldRef) (newextent : List (ℚ × ℚ)) (st : Store)
    (i : ℕ) : Except String Store :=
  match f.axes.get? i, newextent.get? i with
  | some aid, some pair =>
      .ok (Store.setAx st aid
        ((Store.getAx st aid).setextent pair
          ((Store.getArr st f.matrix).shape.getD i 0)))
  | _, _ => .error "IndexError"

/-- The Field.extent setter against the store: assert that the length of
the new extent is twice the rank, then rebuild every axis. -/
def setExtentF (s : Store) (f : FieldRef) (newextent : List (ℚ × ℚ)) :
    Except String Store :=
  if FieldRef.dims s f * 2 ≠ 2 * newextent.length then
    .error "size of newextent doesnt match self.dimensions * 2"
  else
    (List.range f.axes.length).foldlM (setExtentStep f newextent) s

/-- The final relabelling step of Field.topolar: when both axes carry
wavenumber names (checked before any write, with Python's short-circuit
and-indexing), rename them in place to angular and radial wavenumber. -/
def renameTopolar (retAxes : List ℕ) (s2 : Store) : Except String Store :=
  match retAxes.get? 0 with
  | none => .error "IndexError"
  | some a0 =>
      if (Store.getAx s2 a0).name.startsWith "$k_" then
        match retAxes.get? 1 with
        | none => .error "IndexError"
        | some a1 =>
            if (Store.getAx s2 a1).name.startsWith "$k_" then
              let s3 := Store.setAx s2 a0
                { Store.getAx s2 a0 with name := "$k_\\phi$" }
              .ok (Store.setAx s3 a1 { Store.getAx s3 a1 with name := "$|k|$" })
            else .ok s2
      else .ok s2

/-- Field.topolar against the store, for a caller-supplied extent
(phimin, phimax, rmin, rmax).  The source's default extent contains the
irrational ±pi and is the same code path with different numbers, which no
claim reads.  Deep copy; default output shape 1000 x r where r caps at
half the smaller input dimension and at 1000; remap through the
interpolation helper and transpose into a freshly allocated array; shift
the angular extent by angleoffset for the resampling and store the
unshifted extent via the extent setter; finally relabel wavenumber axes. -/
def topolarMat (s : Store) (f : FieldRef) (extent : (ℚ × ℚ) × (ℚ × ℚ))
    (shape? : Option (ℕ × ℕ)) (angleoffset : ℚ) : Mat :=
  let shape := match shape? with
    | some sh => sh
    | none =>
        (1000, min ((((s.getArr f.matrix).shape.foldr min 1000000000)) / 2) 1000)
  let newext : List ℚ :=
    [extent.2.1, extent.2.2, extent.1.1 - angleoffset, extent.1.2 - angleoffset]
  (transfromxy2polar (s.getArr f.matrix) (extentList s f) newext shape).transpose

/-- The body of Field.topolar: deep copy, allocate the remapped array,
rebind the copy's matrix to it, store the unshifted extent through the
extent setter, and finally relabel wavenumber axes. -/
def topolarF (s : Store) (f : FieldRef) (extent : (ℚ × ℚ) × (ℚ × ℚ))
    (shape? : Option (ℕ × ℕ)) (angleoffset : ℚ) :
    Except String (Store × FieldRef) :=
  let p := deepcopyF s f
  let q := p.1.allocArr (topolarMat s f extent shape? angleoffset)
  let ret : FieldRef := { p.2 with matrix := q.2 }
  (setExtentF q.1 ret [extent.1, extent.2]) >>= fun s2 =>
    (renameTopolar ret.axes s2).map (fun s4 => (s4, ret))

/-- All object cells present in s are unchanged in s2 (newer allocations
may exist beyond them). -/
def preserved (s s2 : Store) : Prop :=
  (∀ i, i < s.arrs.length → s2.arrs.getD i default = s.arrs.getD i default) ∧
  (∀ i, i < s.axs.length → s2.axs.getD i default = s.axs.getD i default)

/-- Validity of a Field object's references in a store. -/
def FieldRef.valid (f : FieldRef) (s : Store) : Prop :=
  f.matrix < s.arrs.length ∧ ∀ a ∈ f.axes, a < s.axs.length

instance (f : FieldRef) (s : Store) : Decidable (f.valid s) := by
  unfold FieldRef.valid
  infer_instance

/-- The returned Field references none of the receiver's objects. -/
def disjointFrom (g f : FieldRef) : Prop :=
  g.matrix ≠ f.matrix ∧ ∀ a ∈ g.axes, a ∉ f.axes

/-- Extract the payload of a successful Except, with a fallback. -/
def getOkD {ε α : Type} (e : Except ε α) (d : α) : α :=
  match e with
  | .ok a => a
  | .error _ => d

/-- Did the computation raise? -/
def isErr {ε α : Type} (e : Except ε α) : Bool :=
  match e with
  | .ok _ => false
  | .error _ => true

/-- The returned store still holds the receiver's matrix and axis objects
unchanged. -/
def receiverUntouched (s s2 : Store) (f : FieldRef) : Prop :=
  s2.getArr f.matrix = s.getArr f.matrix ∧ ∀ a ∈ f.axes, s2.getAx a = s.getAx a

/-- A non-mutating operation's outcome: all pre-existing objects are
unchanged, in particular the receiver's, and the returned Field aliases
none of the receiver's objects. -/
def cleanResult (s : Store) (f : FieldRef) (r : Store × FieldRef) : Prop :=
  preserved s r.1 ∧ receiverUntouched s r.1 f ∧ disjointFrom r.2 f

/-! ### Concrete inputs used by witnesses and counterexamples -/

/-- The evenly spaced sequence a, a+d, ..., a+(n-1)d. -/
def arithSeq (a d : ℚ) : ℕ → List ℚ
  | 0 => []
  | n + 1 => a :: arithSeq (a + d) d n

/-- A 4 x 4 array of ones. -/
def mat44 : Mat := ⟨[4, 4], fun _ => 1⟩

/-- The Field constructed from mat44 with default axes. -/
def F44 : Field := getOkD (Field.init mat44 none none none "f" "") default

/-- A 2-D field whose x axis has a single grid node, hence islinear is
False (np.var of an empty np.diff is NaN). -/
def F22 : Field :=
  { matrix := ⟨[2, 2], fun _ => 1⟩, name := "g",
    axes := [{ name := "x", grid_node := [0] },
             { name := "y", grid_node := [0, 1, 2] }] }

/-- A 1-D field with 4 cells valued 1, 2, 3, 4. -/
def W4 : Field :=
  { matrix := ⟨[4], fun idx => (([1, 2, 3, 4] : List ℚ).getD (idx.getD 0 0) 0)⟩,
    name := "w4",
    axes := [{ name := "x", grid_node := [0, 1, 2, 3, 4] }] }

/-- A 1-D field with 5 cells valued 10, 20, 30, 40, 50. -/
def W5 : Field :=
  { matrix := ⟨[5], fun idx => (([10, 20, 30, 40, 50] : List ℚ).getD (idx.getD 0 0) 0)⟩,
    name := "w5",
    axes := [{ name := "x", grid_node := [0, 1, 2, 3, 4, 5] }] }

/-- A 1 x 3 array of fives. -/
def mat13 : Mat := ⟨[1, 3], fun _ => 5⟩

/-- A store holding the arrays and axes of two 1-D Fields named A and B. -/
def S6 : Store :=
  { arrs := [⟨[4], fun idx => (([1, 2, 3, 4] : List ℚ).getD (idx.getD 0 0) 0)⟩,
             ⟨[4], fun idx => (([10, 20, 30, 40] : List ℚ).getD (idx.getD 0 0) 0)⟩],
    axs := [{ name := "x", grid_node := [0, 1, 2, 3, 4] },
            { name := "x", grid_node := [0, 1, 2, 3, 4] }] }

/-- The Field object named A in S6. -/
def refA : FieldRef := { matrix := 0, axes := [0], name := "A" }

/-- The Field object named B in S6. -/
def refB : FieldRef := { matrix := 1, axes := [1], name := "B" }

/-! ## Supporting lemmas -/

theorem getD_append_left {α : Type} (l l2 : List α) (i : ℕ) (d : α)
    (h : i < l.length) : (l ++ l2).getD i d = l.getD i d := by
  simp [List.getD, List.getElem?_append_left h]

theorem getD_append_right {α : Type} (l l2 : List α) (i : ℕ) (d : α) :
    (l ++ l2).getD (l.length + i) d = l2.getD i d := by
  simp [List.getD, List.getElem?_append_right (Nat.le_add_right _ _)]

theorem getD_set_self {α : Type} (l : List α) (i : ℕ) (x d : α)
    (h : i < l.length) : (l.set i x).getD i d = x := by
  simp [List.getD, List.getElem?_set_self', h]

theorem getD_set_ne {α : Type} (l : List α) (i j : ℕ) (x d : α)
    (h : i ≠ j) : (l.set i x).getD j d = l.getD j d := by
  simp [List.getD, List.getElem?_set_ne h]

theorem getD_map_len {α β : Type} (f : α → β) (l : List α) (i : ℕ)
    (d : α) (d2 : β) (h : i < l.length) :
    (l.map f).getD i d2 = f (l.getD i d) := by
  simp only [List.getD, List.getElem?_map]
  simp [List.getElem?_eq_getElem h]

theorem getElem?_eq_getD {α : Type} (l : List α) (i : ℕ) (x d : α)
    (h : l[i]? = some x) : l.getD i d = x := by
  simp [List.getD, h]

theorem sum_set_lt (l : List ℕ) (i x : ℕ) (h : i < l.length)
    (hx : x < l.getD i 0) : (l.set i x).sum < l.sum := by
  induction l generalizing i with
  | nil => simp at h
  | cons a t ih =>
      cases i with
      | zero => simp only [List.getD_cons_zero] at hx; simp [List.set]; omega
      | succ j =>
          simp only [List.getD_cons_succ] at hx
          simp only [List.length_cons, Nat.succ_lt_succ_iff] at h
          have := ih j h hx
          simp [List.set]; omega

theorem everyOther_length {α : Type} :
    ∀ l : List α, (everyOther l).length = (l.length + 1) / 2
  | [] => by simp [everyOther]
  | [a] => by simp [everyOther]
  | a :: b :: rest => by
      have := everyOther_length rest
      simp only [everyOther, List.length_cons]
      omega

theorem everyOther_eq_map {α : Type} [Inhabited α] :
    ∀ l : List α,
      everyOther l = (List.range ((l.length + 1) / 2)).map (fun i => l.getD (2 * i) default)
  | [] => by simp [everyOther]
  | [a] => by simp [everyOther, List.range_succ]
  | a :: b :: rest => by
      have ih := everyOther_eq_map rest
      simp only [everyOther, List.length_cons]
      have hlen : (rest.length + 1 + 1 + 1) / 2 = (rest.length + 1) / 2 + 1 := by omega
      rw [hlen, List.range_succ_eq_map, List.map_cons, List.map_map]
      simp only [List.cons.injEq]
      refine ⟨rfl, ?_⟩
      · rw [ih]
        apply List.map_congr_left
        intro i _
        simp [Function.comp, Nat.mul_succ]

theorem linspaceQ_length (a b : ℚ) (m : ℕ) : (linspaceQ a b m).length = m := by
  unfold linspaceQ
  split
  · simp_all
  · split
    · simp_all
    · rw [List.length_map, List.length_range]

theorem Axis.len_setextent (ax : Axis) (e : ℚ × ℚ) (n : ℕ) :
    (ax.setextent e n).len = n := by
  simp [Axis.setextent, Axis.setGridNode, Axis.len, linspaceQ_length]

theorem Axis.len_half_resolution (ax : Axis) :
    ax.half_resolution.len = ax.len / 2 := by
  simp only [Axis.half_resolution, Axis.setGridNode, Axis.len, everyOther_length]
  omega

theorem findOver_none (axs : List Axis) (maxlen : ℕ) :
    findOver axs maxlen = none ↔ ∀ ax ∈ axs, ax.len ≤ maxlen := by
  induction axs with
  | nil => simp [findOver]
  | cons a t ih =>
      by_cases hlt : maxlen < a.len
      · simp only [findOver, if_pos hlt]
        constructor
        · intro h; cases h
        · intro h
          have := h a (by simp)
          omega
      · simp only [findOver, if_neg hlt, Option.map_eq_none', ih, List.mem_cons]
        constructor
        · intro h ax hax
          rcases hax with rfl | h2
          · omega
          · exact h ax h2
        · intro h ax hax
          exact h ax (Or.inr hax)

theorem findOver_some (axs : List Axis) (maxlen : ℕ) :
    ∀ i, findOver axs maxlen = some i →
      i < axs.length ∧ maxlen < (axs.getD i default).len := by
  induction axs with
  | nil => intro i h; simp [findOver] at h
  | cons a t ih =>
      intro i h
      by_cases hlt : maxlen < a.len
      · rw [findOver, if_pos hlt] at h
        cases h
        exact ⟨Nat.succ_pos _, by simpa using hlt⟩
      · rw [findOver, if_neg hlt] at h
        rcases Option.map_eq_some'.mp h with ⟨j, hj, rfl⟩
        have := ih j hj
        simp only [List.length_cons, List.getD_cons_succ]
        omega

theorem half_resolution_axes (f : Field) (i : ℕ) :
    (f.half_resolution i).axes = f.axes.set i (f.axes.getD i default).half_resolution := rfl

theorem sumLens_half_lt (f : Field) (i maxlen : ℕ) (hi : i < f.axes.length)
    (hlen : maxlen < (f.axes.getD i default).len) :
    (f.half_resolution i).sumLens < f.sumLens := by
  unfold Field.sumLens
  rw [half_resolution_axes, List.map_set]
  apply sum_set_lt
  · simpa using hi
  · rw [getD_map_len Axis.len _ _ default 0 hi, Axis.len_half_resolution]
    omega

theorem autoreduceFuel_bounded :
    ∀ (fuel : ℕ) (f : Field) (maxlen : ℕ), f.sumLens < fuel →
      ∀ ax ∈ (Field.autoreduceFuel fuel f maxlen).axes, ax.len ≤ maxlen := by
  intro fuel
  induction fuel with
  | zero => intro f maxlen h; omega
  | succ n ih =>
      intro f maxlen h
      rw [Field.autoreduceFuel]
      cases hfind : findOver f.axes maxlen with
      | none => exact (findOver_none _ _).mp hfind
      | some i =>
          have ⟨hi, hlen⟩ := findOver_some f.axes maxlen i hfind
          exact ih _ maxlen (by have := sumLens_half_lt f i maxlen hi hlen; omega)

theorem autoreduce_fixed (f : Field) (maxlen : ℕ)
    (h : ∀ ax ∈ f.axes, ax.len ≤ maxlen) : f.autoreduce maxlen = f := by
  rw [Field.autoreduce, Field.autoreduceFuel, (findOver_none _ _).mpr h]

/-! ## Claim theorems -/

/-- C8: Axis.cutout keeps exactly the original nodes n with
min(newextent) <= n <= max(newextent), in their original order (a
sublist), and is a total operation: inverted or out-of-range bounds, or
bounds removing every node, silently yield the (possibly empty) filtered
sub-axis; the grid_node setter it passes through only checks
1-dimensionality, which always holds. -/
theorem C8_cutout_filter (a : Axis) (e : ℚ × ℚ) :
    (a.cutout e).grid_node
        = a.grid_node.filter (fun gn => min e.1 e.2 ≤ gn ∧ gn ≤ max e.1 e.2) ∧
    (∀ n : ℚ, n ∈ (a.cutout e).grid_node ↔
        n ∈ a.grid_node ∧ min e.1 e.2 ≤ n ∧ n ≤ max e.1 e.2) ∧
    (a.cutout e).grid_node.Sublist a.grid_node := by
  have hmain : (a.cutout e).grid_node
      = a.grid_node.filter (fun gn => min e.1 e.2 ≤ gn ∧ gn ≤ max e.1 e.2) := by
    by_cases hle : e.1 ≤ e.2
    · rw [min_eq_left hle, max_eq_right hle]
      simp only [Axis.cutout, Axis.setGridNode, if_pos hle]
    · have hlt := le_of_lt (not_le.mp hle)
      rw [min_eq_right hlt, max_eq_left hlt]
      simp only [Axis.cutout, Axis.setGridNode, if_neg hle]
  refine ⟨hmain, ?_, ?_⟩
  · intro n
    rw [hmain, List.mem_filter]
    simp
  · rw [hmain]
    exact List.filter_sublist _

/-- C2: on a Field with a well-formed axis a of even cell count L,
half_resolution yields an axis of L/2 cells and a matrix whose dimension a
has length L/2, each output cell j on that dimension being the arithmetic
mean of input cells 2j and 2j+1. -/
theorem C2_half_resolution_even (f : Field) (a L : ℕ)
    (ha : a < f.axes.length) (hs : a < f.matrix.shape.length)
    (hax : (f.axes.getD a default).len = L)
    (hm : f.matrix.shape.getD a 0 = L)
    (hev : L % 2 = 0) :
    ((f.half_resolution a).axes.getD a default).len = L / 2 ∧
    (f.half_resolution a).matrix.shape.getD a 0 = L / 2 ∧
    ∀ idx : List ℕ, idx.getD a 0 < L / 2 →
      (f.half_resolution a).matrix.data idx
        = (f.matrix.data (idx.set a (2 * idx.getD a 0))
           + f.matrix.data (idx.set a (2 * idx.getD a 0 + 1))) / 2 := by
  refine ⟨?_, ?_, ?_⟩
  · rw [half_resolution_axes, getD_set_self _ _ _ _ ha,
      Axis.len_half_resolution, hax]
  · show (f.matrix.shape.set a _).getD a 0 = L / 2
    rw [getD_set_self _ _ _ _ hs]
    unfold sliceLen
    simp only [axesidentify]
    rw [hm]
    split <;> omega
  · intro idx hidx
    show (matDivS (matAdd _ _) 2).data idx = _
    simp only [matDivS, matAdd, ndslice, axesidentify]
    rw [Nat.zero_add, Nat.add_comm 1 (2 * idx.getD a 0)]

/-- C2 witness: the 1-D field with cells 1, 2, 3, 4 (L = 4). -/
theorem C2_half_resolution_even_witness :
    ((W4.half_resolution 0).axes.getD 0 default).len = 4 / 2 ∧
    (W4.half_resolution 0).matrix.shape.getD 0 0 = 4 / 2 ∧
    ∀ idx : List ℕ, idx.getD 0 0 < 4 / 2 →
      (W4.half_resolution 0).matrix.data idx
        = (W4.matrix.data (idx.set 0 (2 * idx.getD 0 0))
           + W4.matrix.data (idx.set 0 (2 * idx.getD 0 0 + 1))) / 2 :=
  C2_half_resolution_even W4 0 4 (by decide) (by decide) (by decide) (by decide)
    (by decide)

/-- C3: on a Field with a well-formed axis a of odd cell count L,
half_resolution drops the last unpaired cell: the axis ends with L/2 cells
(2 for L = 5) and so does matrix dimension a; the surviving nodes are
exactly the even-indexed original nodes 0, 2, 4, ... (the last node of an
even node count is dropped), and output cell j is still the mean of input
cells 2j and 2j+1, so axis and matrix are truncated identically. -/
theorem C3_half_resolution_odd (f : Field) (a L : ℕ)
    (ha : a < f.axes.length) (hs : a < f.matrix.shape.length)
    (hax : (f.axes.getD a default).len = L)
    (hm : f.matrix.shape.getD a 0 = L)
    (hodd : L % 2 = 1) :
    ((f.half_resolution a).axes.getD a default).len = L / 2 ∧
    (f.half_resolution a).matrix.shape.getD a 0 = L / 2 ∧
    ((f.half_resolution a).axes.getD a default).grid_node
      = (List.range (((f.axes.getD a default).grid_node.length + 1) / 2)).map
          (fun i => (f.axes.getD a default).grid_node.getD (2 * i) default) ∧
    ∀ idx : List ℕ, idx.getD a 0 < L / 2 →
      (f.half_resolution a).matrix.data idx
        = (f.matrix.data (idx.set a (2 * idx.getD a 0))
           + f.matrix.data (idx.set a (2 * idx.getD a 0 + 1))) / 2 := by
  refine ⟨?_, ?_, ?_, ?_⟩
  · rw [half_resolution_axes, getD_set_self _ _ _ _ ha,
      Axis.len_half_resolution, hax]
  · show (f.matrix.shape.set a _).getD a 0 = L / 2
    rw [getD_set_self _ _ _ _ hs]
    unfold sliceLen
    simp only [axesidentify]
    rw [hm]
    split <;> omega
  · rw [half_resolution_axes, getD_set_self _ _ _ _ ha]
    exact everyOther_eq_map _
  · intro idx hidx
    show (matDivS (matAdd _ _) 2).data idx = _
    simp only [matDivS, matAdd, ndslice, axesidentify]
    rw [Nat.zero_add, Nat.add_comm 1 (2 * idx.getD a 0)]

/-- C3 witness: the 1-D field with 5 cells 10, ..., 50; the halved axis
has 2 cells and nodes 0, 2, 4. -/
theorem C3_half_resolution_odd_witness :
    ((W5.half_resolution 0).axes.getD 0 default).len = 5 / 2 ∧
    (W5.half_resolution 0).matrix.shape.getD 0 0 = 5 / 2 ∧
    ((W5.half_resolution 0).axes.getD 0 default).grid_node
      = (List.range (((W5.axes.getD 0 default).grid_node.length + 1) / 2)).map
          (fun i => (W5.axes.getD 0 default).grid_node.getD (2 * i) default) ∧
    ∀ idx : List ℕ, idx.getD 0 0 < 5 / 2 →
      (W5.half_resolution 0).matrix.data idx
        = (W5.matrix.data (idx.set 0 (2 * idx.getD 0 0))
           + W5.matrix.data (idx.set 0 (2 * idx.getD 0 0 + 1))) / 2 :=
  C3_half_resolution_odd W5 0 5 (by decide) (by decide) (by decide) (by decide)
    (by decide)

/-- C9: autoreduce(maxlen) is idempotent: after one pass every axis is
within maxlen cells, so a second call with the same maxlen finds no axis
to halve and returns the Field unchanged (matrix and all axes identical). -/
theorem C9_autoreduce_idempotent (f : Field) (maxlen : ℕ) :
    (f.autoreduce maxlen).autoreduce maxlen = f.autoreduce maxlen :=
  autoreduce_fixed _ _ (autoreduceFuel_bounded _ _ _ (Nat.lt_succ_self _))

theorem exceptBind_ok {ε α β : Type} {e : Except ε α} {g : α → Except ε β} {b : β}
    (h : e >>= g = .ok b) : ∃ a, e = .ok a ∧ g a = .ok b := by
  cases e with
  | error err => simp [Bind.bind, Except.bind] at h
  | ok a => exact ⟨a, rfl, by simpa [Bind.bind, Except.bind] using h⟩

theorem addaxisobj_ok_destruct {f : Field} {ax : Axis} {g : Field}
    (h : f.addaxisobj ax = .ok g) :
    g.matrix = f.matrix ∧ g.axes = f.axes ++ [ax] := by
  unfold Field.addaxisobj at h
  cases hget : f.matrix.shape.get? f.axes.length with
  | none => rw [hget] at h; cases h
  | some pts =>
      rw [hget] at h
      dsimp only at h
      by_cases hc : pts = ax.len
      · rw [if_pos hc] at h
        cases h
        exact ⟨rfl, rfl⟩
      · rw [if_neg hc] at h
        cases h

theorem addaxis_matrix {f : Field} {e : ℚ × ℚ} {nm : String} {g : Field}
    (h : f.addaxis e nm = .ok g) : g.matrix = f.matrix := by
  unfold Field.addaxis at h
  cases hget : f.matrix.shape.get? f.axes.length with
  | none => rw [hget] at h; cases h
  | some pts =>
      rw [hget] at h
      dsimp only at h
      exact (addaxisobj_ok_destruct h).1

theorem addaxis_ok_destruct {f : Field} {e : ℚ × ℚ} {nm : String} {g : Field}
    {pts : ℕ} (hget : f.matrix.shape.get? f.axes.length = some pts)
    (h : f.addaxis e nm = .ok g) :
    g.matrix = f.matrix ∧ g.axes = f.axes ++ [Axis.setextent { name := nm } e pts] := by
  unfold Field.addaxis at h
  rw [hget] at h
  dsimp only at h
  exact addaxisobj_ok_destruct h

theorem edgeStep_matrix {edges : Option (List ℚ)} {nm : String} {limit : ℤ}
    {f g : Field} (h : Field.edgeStep edges nm limit f = .ok g) :
    g.matrix = f.matrix := by
  unfold Field.edgeStep at h
  cases edges with
  | some e => exact (addaxisobj_ok_destruct h).1
  | none =>
      by_cases hc : f.dimensions > limit
      · rw [if_pos hc] at h
        exact addaxis_matrix h
      · rw [if_neg hc] at h
        simp only [pure, Except.pure, Except.ok.injEq] at h
        rw [← h]

/-- C10: constructing a Field without explicit edges squeezes the matrix
(every length-1 dimension removed) before axes are built, so a (1, N)
array with N at least 2 yields a 1-D Field of N cells; with xedges
supplied the matrix is stored with its shape (indeed its identity)
unchanged. -/
theorem C10_construction_squeeze :
    (∀ (m : Mat) (nm u : String) (f : Field),
        Field.init m none none none nm u = .ok f → f.matrix = m.squeeze) ∧
    (∀ (N : ℕ) (d : List ℕ → ℚ) (nm u : String) (f : Field), 2 ≤ N →
        Field.init ⟨[1, N], d⟩ none none none nm u = .ok f →
        f.matrix.shape = [N] ∧ f.dimensions = 1 ∧ f.axes.length = 1 ∧
        (f.axes.getD 0 default).len = N) ∧
    (∀ (m : Mat) (e : List ℚ) (nm u : String) (f : Field),
        Field.init m (some e) none none nm u = .ok f → f.matrix = m) := by
  refine ⟨?_, ?_, ?_⟩
  · intro m nm u f h
    unfold Field.init at h
    simp only [Option.isSome_none, Bool.false_eq_true, if_false] at h
    obtain ⟨f2, h12, h3⟩ := exceptBind_ok h
    obtain ⟨f1, h1, h2⟩ := exceptBind_ok h12
    rw [edgeStep_matrix h3, edgeStep_matrix h2, edgeStep_matrix h1]
  · intro N d nm u f hN h
    have hN1 : N ≠ 1 := by omega
    have hN0 : N ≠ 0 := by omega
    have hshape : (Mat.mk [1, N] d).squeeze.shape = [N] := by
      simp [Mat.squeeze, List.filter, hN1]
    unfold Field.init at h
    simp only [Option.isSome_none, Bool.false_eq_true, if_false] at h
    obtain ⟨f2, h12, h3⟩ := exceptBind_ok h
    obtain ⟨f1, h1, h2⟩ := exceptBind_ok h12
    set f0 : Field :=
      { matrix := (Mat.mk [1, N] d).squeeze, name := nm, unit := u, axes := [] }
      with hf0
    have hdim0 : f0.dimensions = 1 := by
      simp [Field.dimensions, hf0, hshape, hN0]
    simp only [Field.edgeStep] at h1
    rw [if_pos (by rw [hdim0]; norm_num)] at h1
    have hget : f0.matrix.shape.get? f0.axes.length = some N := by
      simp [hf0, hshape]
    obtain ⟨hm1, ha1⟩ := addaxis_ok_destruct hget h1
    have hm1shape : f1.matrix.shape = [N] := by rw [hm1]; exact hshape
    have hdim1 : f1.dimensions = 1 := by
      simp [Field.dimensions, hm1shape, hN0]
    simp only [Field.edgeStep] at h2
    rw [if_neg (by rw [hdim1]; norm_num)] at h2
    simp only [pure, Except.pure, Except.ok.injEq] at h2
    rw [← h2] at h3
    simp only [Field.edgeStep] at h3
    rw [if_neg (by rw [hdim1]; norm_num)] at h3
    simp only [pure, Except.pure, Except.ok.injEq] at h3
    rw [← h3]
    refine ⟨hm1shape, hdim1, ?_, ?_⟩
    · rw [ha1]; rfl
    · rw [ha1]
      simp [Axis.len_setextent]
  · intro m e nm u f h
    unfold Field.init at h
    simp only [Option.isSome_some, eq_self_iff_true, if_true] at h
    obtain ⟨f2, h12, h3⟩ := exceptBind_ok h
    obtain ⟨f1, h1, h2⟩ := exceptBind_ok h12
    rw [edgeStep_matrix h3, edgeStep_matrix h2]
    simp only [Field.edgeStep, Field.addaxisnodes] at h1
    exact (addaxisobj_ok_destruct h1).1

theorem arith_cons (a d : ℚ) (n : ℕ) :
    arithSeq a d (n + 1) = a :: arithSeq (a + d) d n := rfl

theorem arith_len (d : ℚ) : ∀ (n : ℕ) (a : ℚ), (arithSeq a d n).length = n := by
  intro n
  induction n with
  | zero => intro a; rfl
  | succ k ih => intro a; simp [arith_cons, ih]

theorem arith_getD (d : ℚ) : ∀ (n i : ℕ) (a : ℚ), i < n →
    (arithSeq a d n).getD i 0 = a + i * d := by
  intro n
  induction n with
  | zero => intro i a h; omega
  | succ k ih =>
      intro i a h
      cases i with
      | zero => simp [arith_cons]
      | succ j =>
          rw [arith_cons, List.getD_cons_succ, ih j (a + d) (by omega)]
          push_cast
          ring

theorem arith_getLastD (d : ℚ) : ∀ (n : ℕ) (a d0 : ℚ),
    (arithSeq a d (n + 1)).getLastD d0 = a + n * d := by
  intro n
  induction n with
  | zero => intro a d0; simp [arithSeq]
  | succ k ih =>
      intro a d0
      rw [arith_cons, List.getLastD_cons, ih (a + d) a]
      push_cast
      ring

theorem arith_append_last (d : ℚ) : ∀ (n : ℕ) (a : ℚ),
    arithSeq a d n ++ [a + n * d] = arithSeq a d (n + 1) := by
  intro n
  induction n with
  | zero => intro a; simp [arithSeq]
  | succ k ih =>
      intro a
      rw [arith_cons, arith_cons, List.cons_append]
      congr 1
      rw [show (a : ℚ) + (k + 1 : ℕ) * d = (a + d) + k * d by push_cast; ring]
      exact ih (a + d)

theorem set_append_last {α : Type} : ∀ (l : List α) (x v : α),
    (l ++ [x]).set l.length v = l ++ [v] := by
  intro l
  induction l with
  | nil => intro x v; rfl
  | cons a t ih => intro x v; simp [List.set, ih]

theorem mids_cons_cons (x y : ℚ) (t : List ℚ) :
    mids (x :: y :: t) = (x + y) / 2 :: mids (y :: t) := rfl

theorem mids_arith (d : ℚ) : ∀ (n : ℕ) (a : ℚ),
    mids (arithSeq a d (n + 1)) = arithSeq (a + d / 2) d n := by
  intro n
  induction n with
  | zero => intro a; rfl
  | succ k ih =>
      intro a
      rw [arith_cons, arith_cons, mids_cons_cons, ← arith_cons, ih (a + d)]
      rw [arith_cons]
      congr 1
      · ring
      · congr 1
        ring

theorem convAux_arith (d : ℚ) : ∀ (m : ℕ) (b : ℚ),
    convAux (b - d) (arithSeq b d (m + 1))
      = arithSeq (b - d / 2) d (m + 1) ++ [(b + m * d) / 2] := by
  intro m
  induction m with
  | zero =>
      intro b
      show (b - d + b) / 2 :: [b / 2] = [b - d / 2, (b + 0 * d) / 2]
      norm_num
      ring
  | succ k ih =>
      intro b
      rw [arith_cons]
      show (b - d + b) / 2 :: convAux b (arithSeq (b + d) d (k + 1)) = _
      conv_rhs => rw [arith_cons, List.cons_append]
      congr 1
      · ring
      have h := ih (b + d)
      rw [show (b : ℚ) + d - d = b by ring] at h
      rw [h]
      congr 1
      · congr 1
        ring
      · simp only [List.cons.injEq, and_true]
        push_cast
        ring

theorem convFull_arith (a d : ℚ) (n : ℕ) :
    convFull (arithSeq a d (n + 2))
      = a / 2 :: (arithSeq (a + d - d / 2) d (n + 1) ++ [(a + d + n * d) / 2]) := by
  rw [arith_cons]
  show a / 2 :: convAux a (arithSeq (a + d) d (n + 1)) = _
  congr 1
  have h := convAux_arith d n (a + d)
  rw [show (a : ℚ) + d - d = a by ring] at h
  rw [h]

theorem gridSet_arith (a d : ℚ) (n : ℕ) :
    gridSet (arithSeq a d (n + 2)) = arithSeq (a - d / 2) d (n + 3) := by
  have hL : (arithSeq (a + d - d / 2) d (n + 1)).length = n + 1 :=
    arith_len d (n + 1) (a + d - d / 2)
  simp only [gridSet]
  rw [convFull_arith a d n]
  rw [show (arithSeq a d (n + 2)).headD 0 = a from rfl]
  rw [arith_getLastD d (n + 1) a 0]
  rw [List.set_cons_zero]
  have hget1 : (a / 2 :: (arithSeq (a + d - d / 2) d (n + 1)
      ++ [(a + d + n * d) / 2])).getD 1 0 = a + d - d / 2 := by
    rw [List.getD_cons_succ,
      getD_append_left _ _ 0 0 (by rw [hL]; omega),
      arith_getD d (n + 1) 0 (a + d - d / 2) (by omega)]
    push_cast
    ring
  rw [hget1]
  have hlen : ((a + (a - (a + d - d / 2))) :: (arithSeq (a + d - d / 2) d (n + 1)
      ++ [(a + d + n * d) / 2])).length = n + 3 := by
    simp [hL]
  rw [hlen]
  rw [show n + 3 - 1 = n + 1 + 1 by omega, show n + 3 - 2 = n + 1 by omega]
  have hgetn1 : ((a + (a - (a + d - d / 2))) :: (arithSeq (a + d - d / 2) d (n + 1)
      ++ [(a + d + n * d) / 2])).getD (n + 1) 0 = (a + d - d / 2) + n * d := by
    rw [List.getD_cons_succ,
      getD_append_left _ _ n 0 (by rw [hL]; omega),
      arith_getD d (n + 1) n (a + d - d / 2) (by omega)]
  rw [hgetn1]
  rw [List.set_cons_succ]
  have hset : ∀ v : ℚ,
      (arithSeq (a + d - d / 2) d (n + 1) ++ [(a + d + n * d) / 2]).set (n + 1) v
        = arithSeq (a + d - d / 2) d (n + 1) ++ [v] := by
    intro v
    have hs := set_append_last (arithSeq (a + d - d / 2) d (n + 1))
      ((a + d + n * d) / 2) v
    rwa [hL] at hs
  rw [hset]
  rw [show arithSeq (a - d / 2) d (n + 3)
      = (a - d / 2) :: arithSeq ((a - d / 2) + d) d (n + 2) from rfl]
  rw [← arith_append_last d (n + 1) ((a - d / 2) + d)]
  congr 1
  · ring
  congr 1
  · congr 1
    ring
  · rw [List.cons.injEq]
    refine ⟨?_, rfl⟩
    push_cast
    ring

/-- C4 counterexample: the claim fails as stated.  For the non-uniformly
spaced cell centers [0, 1, 3], the grid setter followed by the grid getter
returns [0, 5/4, 3]: the interior center is smoothed to 5/4, which is not
within floating-point tolerance of 1. -/
theorem C4_grid_roundtrip_counterexample :
    (Axis.setGrid { name := "x" } [0, 1, 3]).grid ≠ [0, 1, 3] := by
  intro h
  have h1 := congrArg (fun l => l.getD 1 0) h
  simp only [Axis.setGrid, Axis.setGridNode, Axis.grid] at h1
  norm_num [gridSet, convFull, convAux, mids, List.set, List.getD] at h1

/-- C4 (amended): for every nonempty sequence of EVENLY spaced cell-center
values g, assigning g through the Axis.grid setter and reading the getter
reproduces g exactly (hence within floating-point tolerance); for uneven
spacing the interior centers are smoothed by the midpoint reconstruction
and the round-trip fails (see the counterexample). -/
theorem C4_grid_roundtrip_amended (ax : Axis) (a d : ℚ) (n : ℕ) (h : 1 ≤ n) :
    (ax.setGrid (arithSeq a d n)).grid = arithSeq a d n := by
  show mids (gridSet (arithSeq a d n)) = arithSeq a d n
  cases n with
  | zero => omega
  | succ k =>
      cases k with
      | zero =>
          show mids (gridSet [a]) = [a]
          simp only [gridSet, convFull, convAux, mids, List.set, List.getD,
            List.tail, List.zipWith, List.headD, List.getLastD, List.length]
          norm_num
          ring
      | succ m =>
          rw [gridSet_arith a d m, mids_arith d (m + 2) (a - d / 2)]
          congr 1
          ring

/-- C4 witness for the amended theorem: the evenly spaced centers
0, 1, 2 round-trip through the grid setter and getter. -/
theorem C4_grid_roundtrip_amended_witness :
    (Axis.setGrid { name := "x" } (arithSeq 0 1 3)).grid = arithSeq 0 1 3 :=
  C4_grid_roundtrip_amended { name := "x" } 0 1 3 (by decide)

theorem isErr_map {ε α β : Type} (fn : α → β) (e : Except ε α) :
    isErr (Except.map fn e) = isErr e := by
  cases e <;> rfl

theorem fftAxis_nonlinear {ax : Axis} (h : ax.islinear = false) (axid axesP : ℕ) :
    fftAxis ax axid axesP = .error "Specified axis is not linear." := by
  unfold fftAxis
  simp [h]

theorem fftAxis_ok_of_linear {ax : Axis} (h : ax.islinear = true) (axid axesP : ℕ) :
    ∃ ax1, fftAxis ax axid axesP = .ok ax1 ∧
      ax1.len = ax.grid_node.length / 2 + 1 := by
  unfold fftAxis
  simp only [h, if_true]
  exact ⟨_, rfl, Axis.len_setextent _ _ _⟩

theorem foldl2_err (axesP : ℕ) (axs : List Axis) (i j : ℕ) (hij : i ≠ j)
    (h : (axs.getD i default).islinear = false ∨
         (axs.getD j default).islinear = false) :
    isErr ([i, j].foldlM (fftVStep axesP) axs) = true := by
  simp only [List.foldlM]
  cases hgi : axs[i]? with
  | none =>
      simp [fftVStep, hgi, Bind.bind, Except.bind, isErr]
  | some axi =>
      have hgiD := getElem?_eq_getD axs i axi default hgi
      by_cases hlin : axi.islinear = true
      · obtain ⟨ax1, hok, _⟩ := fftAxis_ok_of_linear hlin i axesP
        have hstep1 : fftVStep axesP axs i = .ok (axs.set i ax1) := by
          simp [fftVStep, hgi, hok, Except.map]
        rw [hstep1]
        have hj : ((axs.set i ax1).getD j default).islinear = false := by
          rw [getD_set_ne _ _ _ _ _ hij]
          rcases h with hi | hjj
          · rw [hgiD] at hi; rw [hi] at hlin; cases hlin
          · exact hjj
        cases hgj : (axs.set i ax1)[j]? with
        | none =>
            simp [Bind.bind, Except.bind, fftVStep, hgj, isErr]
        | some axj =>
            have hgjD := getElem?_eq_getD (axs.set i ax1) j axj default hgj
            rw [hgjD] at hj
            simp [Bind.bind, Except.bind, fftVStep, hgj,
              fftAxis_nonlinear hj, isErr, Except.map]
      · have hlinF : axi.islinear = false := by
          cases hb : axi.islinear
          · rfl
          · exact absurd hb hlin
        simp [Bind.bind, Except.bind, fftVStep, hgi,
          fftAxis_nonlinear hlinF, isErr, Except.map]

/-- C5: Field.fft raises a descriptive error whenever the field is not
exactly 2-D (including empty fields, whose dimensions read -1) and
whenever either of the two axes is not linear in the sense of islinear
(nonuniform node spacing, or fewer than two nodes, where np.var of the
empty np.diff is NaN); in none of these cases is a transformed Field
returned. -/
theorem C5_fft_error_cases (f : Field) (k0 : Option ℚ) (axes : ℕ)
    (h : f.dimensions ≠ 2 ∨ (f.axes.getD 0 default).islinear = false ∨
        (f.axes.getD 1 default).islinear = false) :
    isErr (f.fftV k0 axes) = true := by
  by_cases hk : k0.isNone
  · simp [Field.fftV, hk, isErr]
  · by_cases hd : f.dimensions ≠ 2
    · simp [Field.fftV, hk, hd, isErr]
    · rcases h with hdim | hlin
      · exact absurd hdim hd
      · rw [Field.fftV, if_neg (by simpa using hk), if_neg hd, isErr_map]
        by_cases hax : axes % 2 = 0
        · rw [rollAxes, if_pos hax]
          exact foldl2_err axes f.axes 0 1 (by omega) hlin
        · rw [rollAxes, if_neg hax]
          exact foldl2_err axes f.axes 1 0 (by omega) (Or.symm hlin)

/-- C5 witness: a 2 x 2 field whose x axis has a single node (islinear
False, as np.var of an empty np.diff is NaN, and any FFT frequency step
would be undefined); fft on it errors for the default axes argument. -/
theorem C5_fft_error_cases_witness :
    isErr (F22.fftV (some 1) 1) = true :=
  C5_fft_error_cases F22 (some 1) 1 (Or.inr (Or.inl rfl))

theorem setextent01_4_linear (nm : String) :
    (Axis.setextent { name := nm } (0, 1) 4).islinear = true := by
  have hr : List.range 5 = [0, 1, 2, 3, 4] := by decide
  have hnodes : (Axis.setextent { name := nm } (0, 1) 4).grid_node
      = [0, 1 / 4, 1 / 2, 3 / 4, 1] := by
    simp only [Axis.setextent, Axis.setGridNode, linspaceQ]
    norm_num [hr]
  unfold Axis.islinear
  rw [hnodes]
  norm_num [diffsQ, varQ, meanQ]

/-- C1 (code bug evidence): the freshly constructed 4 x 4 Field satisfies
the invariant len(axes[i]) == matrix.shape[i], and fft (with default
arguments k0=1, axes=1) returns without error a Field whose matrix has
shape (3, 4) while both of its axes have 3 cells: np.fft.rfft2 with
axes=(1,0) halves only matrix dimension 0, but the code rebuilds BOTH axes
with the rfftfreq length (s+1)/2+1, so axes[1] ends with 3 cells against 4
matrix columns and the invariant is broken. -/
theorem C1_fft_breaks_invariant :
    F44.wf ∧
    isErr (F44.fftV (some 1) 1) = false ∧
    (getOkD (F44.fftV (some 1) 1) default).matrix.shape = [3, 4] ∧
    (getOkD (F44.fftV (some 1) 1) default).axes.map Axis.len = [3, 3] ∧
    ¬ (getOkD (F44.fftV (some 1) 1) default).wf := by
  have hax0 : F44.axes.getD 0 default = Axis.setextent { name := "x" } (0, 1) 4 := rfl
  have hax1 : F44.axes.getD 1 default = Axis.setextent { name := "y" } (0, 1) 4 := rfl
  have hlin0 : (F44.axes.getD 0 default).islinear = true := by
    rw [hax0]; exact setextent01_4_linear "x"
  have hlin1 : (F44.axes.getD 1 default).islinear = true := by
    rw [hax1]; exact setextent01_4_linear "y"
  obtain ⟨ay, hay, haylen⟩ := fftAxis_ok_of_linear hlin1 1 1
  obtain ⟨ax, hax, haxlen⟩ := fftAxis_ok_of_linear hlin0 0 1
  have haylen3 : ay.len = 3 := by
    rw [haylen, show (F44.axes.getD 1 default).grid_node.length = 5 from by decide]
  have haxlen3 : ax.len = 3 := by
    rw [haxlen, show (F44.axes.getD 0 default).grid_node.length = 5 from by decide]
  have hstep1 : fftVStep 1 F44.axes 1 = .ok (F44.axes.set 1 ay) := by
    show (fftAxis (F44.axes.getD 1 default) 1 1).map
      (fun ax1 => F44.axes.set 1 ax1) = _
    rw [hay]
    rfl
  have hstep2 : fftVStep 1 (F44.axes.set 1 ay) 0
      = .ok ((F44.axes.set 1 ay).set 0 ax) := by
    show (fftAxis (F44.axes.getD 0 default) 0 1).map
      (fun ax1 => (F44.axes.set 1 ay).set 0 ax1) = _
    rw [hax]
    rfl
  have hfold : (rollAxes 1).foldlM (fftVStep 1) F44.axes
      = .ok ((F44.axes.set 1 ay).set 0 ax) := by
    rw [show rollAxes 1 = [1, 0] from rfl]
    simp [List.foldlM, hstep1, hstep2, Bind.bind, Except.bind, pure, Except.pure]
  have hdim : F44.dimensions = 2 := by decide
  have hfft : F44.fftV (some 1) 1
      = .ok { F44 with matrix := fftMat F44.matrix (rollAxes 1), unit := "?",
                       name := "FFT of " ++ F44.name,
                       axes := (F44.axes.set 1 ay).set 0 ax } := by
    rw [Field.fftV, if_neg (by simp), if_neg (by rw [hdim]; simp), hfold]
    rfl
  have haxes : (F44.axes.set 1 ay).set 0 ax
      = [ax, ay] := by
    rw [show F44.axes = [F44.axes.getD 0 default, F44.axes.getD 1 default] from rfl]
    rfl
  refine ⟨by decide, ?_, ?_, ?_, ?_⟩
  · rw [hfft]; rfl
  · rw [hfft]
    show (fftMat F44.matrix (rollAxes 1)).shape = [3, 4]
    decide
  · rw [hfft]
    show ((F44.axes.set 1 ay).set 0 ax).map Axis.len = [3, 3]
    rw [haxes]
    simp [haxlen3, haylen3]
  · rw [hfft]
    intro hwf
    unfold Field.wf at hwf
    simp only [getOkD] at hwf
    rw [haxes] at hwf
    have h1 := hwf 1 (by simp)
    rw [show ([ax, ay].getD 1 default) = ay from rfl] at h1
    rw [show (fftMat F44.matrix (rollAxes 1)).shape.getD 1 0 = 4 from by decide] at h1
    rw [haylen3] at h1
    cases h1

/-- C10 witness: a 1 x 3 array of fives yields a 1-D Field with 3 cells. -/
theorem C10_construction_squeeze_witness :
    (getOkD (Field.init mat13 none none none "A" "") default).matrix.shape = [3] ∧
    (getOkD (Field.init mat13 none none none "A" "") default).dimensions = 1 ∧
    (getOkD (Field.init mat13 none none none "A" "") default).axes.length = 1 ∧
    ((getOkD (Field.init mat13 none none none "A" "") default).axes.getD 0 default).len = 3 :=
  C10_construction_squeeze.2.1 3 (fun _ => 5) "A" "" _ (by decide) rfl

/-! ### Store lemmas for the deep-copy and aliasing claims -/

/-- s2 extends s: all old cells unchanged and no cell lost. -/
def growsFrom (s2 s : Store) : Prop :=
  preserved s s2 ∧ s.arrs.length ≤ s2.arrs.length ∧ s.axs.length ≤ s2.axs.length

theorem growsFrom_refl (s : Store) : growsFrom s s :=
  ⟨⟨fun _ _ => rfl, fun _ _ => rfl⟩, le_refl _, le_refl _⟩

theorem growsFrom_allocArr {s2 s : Store} (h : growsFrom s2 s) (v : Mat) :
    growsFrom (s2.allocArr v).1 s := by
  obtain ⟨⟨hp1, hp2⟩, hl1, hl2⟩ := h
  refine ⟨⟨?_, ?_⟩, ?_, ?_⟩
  · intro i hi
    rw [show (s2.allocArr v).1.arrs = s2.arrs ++ [v] from rfl,
      getD_append_left _ _ _ _ (by omega)]
    exact hp1 i hi
  · intro i hi
    exact hp2 i hi
  · show s.arrs.length ≤ (s2.arrs ++ [v]).length
    rw [List.length_append]
    omega
  · exact hl2

theorem growsFrom_allocAxs {s2 s : Store} (h : growsFrom s2 s) (vs : List Axis) :
    growsFrom (s2.allocAxs vs).1 s := by
  obtain ⟨⟨hp1, hp2⟩, hl1, hl2⟩ := h
  refine ⟨⟨?_, ?_⟩, ?_, ?_⟩
  · intro i hi
    exact hp1 i hi
  · intro i hi
    rw [show (s2.allocAxs vs).1.axs = s2.axs ++ vs from rfl,
      getD_append_left _ _ _ _ (by omega)]
    exact hp2 i hi
  · exact hl1
  · show s.axs.length ≤ (s2.axs ++ vs).length
    rw [List.length_append]
    omega

theorem growsFrom_setArr {s2 s : Store} (h : growsFrom s2 s) {j : ℕ}
    (hj : s.arrs.length ≤ j) (v : Mat) : growsFrom (s2.setArr j v) s := by
  obtain ⟨⟨hp1, hp2⟩, hl1, hl2⟩ := h
  refine ⟨⟨?_, ?_⟩, ?_, ?_⟩
  · intro i hi
    rw [show (s2.setArr j v).arrs = s2.arrs.set j v from rfl,
      getD_set_ne _ _ _ _ _ (by omega)]
    exact hp1 i hi
  · intro i hi
    exact hp2 i hi
  · show s.arrs.length ≤ (s2.arrs.set j v).length
    rw [List.length_set]
    exact hl1
  · exact hl2

theorem growsFrom_setAx {s2 s : Store} (h : growsFrom s2 s) {j : ℕ}
    (hj : s.axs.length ≤ j) (v : Axis) : growsFrom (s2.setAx j v) s := by
  obtain ⟨⟨hp1, hp2⟩, hl1, hl2⟩ := h
  refine ⟨⟨?_, ?_⟩, ?_, ?_⟩
  · intro i hi
    exact hp1 i hi
  · intro i hi
    rw [show (s2.setAx j v).axs = s2.axs.set j v from rfl,
      getD_set_ne _ _ _ _ _ (by omega)]
    exact hp2 i hi
  · exact hl1
  · show s.axs.length ≤ (s2.axs.set j v).length
    rw [List.length_set]
    exact hl2

theorem getD_append_self {α : Type} (l : List α) (v d : α) :
    (l ++ [v]).getD l.length d = v := by
  have := getD_append_right l [v] 0 d
  simpa using this

theorem range_getD (n i : ℕ) (h : i < n) : (List.range n).getD i 0 = i := by
  simp [List.getD, List.getElem?_range h]

/-- The full characterisation of copy.deepcopy of a Field against the
store: the store grows (old cells untouched), the copy's references are
the freshly allocated ids past the old store, and the fresh cells hold
copies of the receiver's array and axis values. -/
theorem deepcopyF_spec (s : Store) (f : FieldRef) :
    growsFrom (deepcopyF s f).1 s ∧
    (deepcopyF s f).2.matrix = s.arrs.length ∧
    (deepcopyF s f).2.axes.length = f.axes.length ∧
    (∀ a ∈ (deepcopyF s f).2.axes, s.axs.length ≤ a) ∧
    (deepcopyF s f).1.arrs.length = s.arrs.length + 1 ∧
    (deepcopyF s f).1.axs.length = s.axs.length + f.axes.length ∧
    (deepcopyF s f).1.getArr (s.arrs.length) = s.getArr f.matrix ∧
    (∀ i, i < f.axes.length → (deepcopyF s f).2.axes.getD i 0 = s.axs.length + i) ∧
    (∀ i, i < f.axes.length →
      (deepcopyF s f).1.getAx (s.axs.length + i) = s.getAx (f.axes.getD i 0)) ∧
    (deepcopyF s f).2.name = f.name ∧ (deepcopyF s f).2.unit = f.unit := by
  refine ⟨?_, rfl, ?_, ?_, ?_, ?_, ?_, ?_, ?_, rfl, rfl⟩
  · exact growsFrom_allocAxs (growsFrom_allocArr (growsFrom_refl s) _) _
  · show ((List.range (f.axes.map (s.getAx ·)).length).map
      (fun i => s.axs.length + i)).length = f.axes.length
    simp
  · intro a ha
    simp only [deepcopyF, Store.allocAxs, List.mem_map, List.mem_range] at ha
    obtain ⟨i, _, rfl⟩ := ha
    have hax2 : (s.allocArr (s.getArr f.matrix)).1.axs = s.axs := rfl
    rw [hax2]
    omega
  · show (s.arrs ++ [s.getArr f.matrix]).length = s.arrs.length + 1
    simp
  · show (s.axs ++ f.axes.map (s.getAx ·)).length = s.axs.length + f.axes.length
    simp
  · show (s.arrs ++ [s.getArr f.matrix]).getD s.arrs.length default = s.getArr f.matrix
    exact getD_append_self _ _ _
  · intro i hi
    show ((List.range (f.axes.map (s.getAx ·)).length).map
      (fun i => s.axs.length + i)).getD i 0 = s.axs.length + i
    rw [getD_map_len _ _ _ 0 0 (by simpa using hi),
      range_getD _ _ (by simpa using hi)]
  · intro i hi
    show (s.axs ++ f.axes.map (s.getAx ·)).getD (s.axs.length + i) default
      = s.getAx (f.axes.getD i 0)
    rw [getD_append_right, getD_map_len _ _ _ 0 default (by simpa using hi)]

theorem growsFrom_receiver {s s2 : Store} {f : FieldRef} (h : growsFrom s2 s)
    (hf : f.valid s) : receiverUntouched s s2 f :=
  ⟨h.1.1 _ hf.1, fun a ha => h.1.2 a (hf.2 a ha)⟩

theorem disjoint_of_fresh {s : Store} {f g : FieldRef} (hf : f.valid s)
    (hm : s.arrs.length ≤ g.matrix) (hax : ∀ a ∈ g.axes, s.axs.length ≤ a) :
    disjointFrom g f := by
  constructor
  · intro he
    have := hf.1
    omega
  · intro a ha hmem
    have h1 := hf.2 a hmem
    have h2 := hax a ha
    omega

/-- The shape shared by Field.__iadd__/__isub__/__imul__/__itruediv__ on a
deep copy: a write to the copy's fresh array leaves every pre-existing
object untouched and the copy aliases nothing of the receiver. -/
theorem clean_copy_setArr (s : Store) (f : FieldRef) (hf : f.valid s) (v : Mat)
    (g : FieldRef) (hgm : g.matrix = (deepcopyF s f).2.matrix)
    (hga : g.axes = (deepcopyF s f).2.axes) :
    cleanResult s f ((deepcopyF s f).1.setArr (deepcopyF s f).2.matrix v, g) := by
  obtain ⟨hgrow, hmid, _, hge, _⟩ := deepcopyF_spec s f
  have hgrow2 : growsFrom ((deepcopyF s f).1.setArr (deepcopyF s f).2.matrix v) s :=
    growsFrom_setArr hgrow (by rw [hmid]) v
  exact ⟨hgrow2.1, growsFrom_receiver hgrow2 hf,
    disjoint_of_fresh hf (by rw [hgm, hmid]) (by rw [hga]; exact hge)⟩

/-- The shape of Field.__pow__: deep copy plus a fresh allocation for the
result array; nothing pre-existing is written. -/
theorem clean_pow (s : Store) (f : FieldRef) (hf : f.valid s) (v : Mat) :
    cleanResult s f (((deepcopyF s f).1.allocArr v).1,
      { (deepcopyF s f).2 with matrix := ((deepcopyF s f).1.allocArr v).2 }) := by
  obtain ⟨hgrow, hmid, _, hge, hlarr, _⟩ := deepcopyF_spec s f
  have hgrow2 := growsFrom_allocArr hgrow v
  refine ⟨hgrow2.1, growsFrom_receiver hgrow2 hf, ?_⟩
  apply disjoint_of_fresh hf
  · show s.arrs.length ≤ (deepcopyF s f).1.arrs.length
    rw [hlarr]
    omega
  · exact hge

/-- C6: A + B (equal shapes) returns a new Field whose array is the
elementwise sum and whose name is "A + B"; adding a scalar keeps the name;
and +, -, *, /, ** all work on a full deep copy: every pre-existing object
- in particular both operands' arrays and axes - is left untouched, and
the returned Field aliases none of the receiver's objects. -/
theorem C6_binary_arith (s : Store) (A B : FieldRef) (c : ℚ) (z : ℤ)
    (hA : A.valid s) (hB : B.valid s)
    (hshape : (s.getArr A.matrix).shape = (s.getArr B.matrix).shape) :
    ((addF s A (Sum.inl B)).1.getArr (addF s A (Sum.inl B)).2.matrix).shape
        = (s.getArr A.matrix).shape ∧
    (∀ idx : List ℕ,
      ((addF s A (Sum.inl B)).1.getArr (addF s A (Sum.inl B)).2.matrix).data idx
        = (s.getArr A.matrix).data idx + (s.getArr B.matrix).data idx) ∧
    (addF s A (Sum.inl B)).2.name = A.name ++ " + " ++ B.name ∧
    (addF s A (Sum.inr c)).2.name = A.name ∧
    disjointFrom (addF s A (Sum.inl B)).2 A ∧
    preserved s (addF s A (Sum.inl B)).1 ∧ preserved s (addF s A (Sum.inr c)).1 ∧
    preserved s (subF s A (Sum.inl B)).1 ∧ preserved s (subF s A (Sum.inr c)).1 ∧
    preserved s (mulF s A (Sum.inl B)).1 ∧ preserved s (mulF s A (Sum.inr c)).1 ∧
    preserved s (divF s A (Sum.inl B)).1 ∧ preserved s (divF s A (Sum.inr c)).1 ∧
    preserved s (powF s A z).1 ∧
    (addF s A (Sum.inl B)).1.getArr A.matrix = s.getArr A.matrix ∧
    (addF s A (Sum.inl B)).1.getArr B.matrix = s.getArr B.matrix ∧
    (∀ a ∈ A.axes, (addF s A (Sum.inl B)).1.getAx a = s.getAx a) ∧
    (∀ a ∈ B.axes, (addF s A (Sum.inl B)).1.getAx a = s.getAx a) := by
  obtain ⟨hgrow, hmid, _, hge, hlarr, _, hnew, _⟩ := deepcopyF_spec s A
  have hAcopy : (deepcopyF s A).1.getArr (deepcopyF s A).2.matrix
      = s.getArr A.matrix := by
    rw [hmid]
    exact hnew
  have hBval : (deepcopyF s A).1.getArr B.matrix = s.getArr B.matrix :=
    hgrow.1.1 _ hB.1
  have hkey : ∀ V : Mat,
      ((deepcopyF s A).1.setArr (deepcopyF s A).2.matrix V).getArr
        ((deepcopyF s A).2.matrix) = V := by
    intro V
    show ((deepcopyF s A).1.arrs.set (deepcopyF s A).2.matrix V).getD
      (deepcopyF s A).2.matrix default = V
    apply getD_set_self
    rw [hmid, hlarr]
    omega
  have hval : (addF s A (Sum.inl B)).1.getArr (addF s A (Sum.inl B)).2.matrix
      = matAdd (s.getArr A.matrix) (s.getArr B.matrix) := by
    show ((deepcopyF s A).1.setArr (deepcopyF s A).2.matrix
      (matAdd ((deepcopyF s A).1.getArr (deepcopyF s A).2.matrix)
        ((deepcopyF s A).1.getArr B.matrix))).getArr
      ((deepcopyF s A).2.matrix) = _
    rw [hkey, hAcopy, hBval]
  have hcleanAdd := clean_copy_setArr s A hA
    (matAdd ((deepcopyF s A).1.getArr (deepcopyF s A).2.matrix)
      ((deepcopyF s A).1.getArr B.matrix))
    { (deepcopyF s A).2 with
        name := (deepcopyF s A).2.name ++ " + " ++ B.name } rfl rfl
  have hpresAdd : preserved s (addF s A (Sum.inl B)).1 := hcleanAdd.1
  refine ⟨?_, ?_, rfl, rfl, hcleanAdd.2.2, hpresAdd,
    (clean_copy_setArr s A hA _ _ rfl rfl).1,
    (clean_copy_setArr s A hA _ _ rfl rfl).1,
    (clean_copy_setArr s A hA _ _ rfl rfl).1,
    (clean_copy_setArr s A hA _ _ rfl rfl).1,
    (clean_copy_setArr s A hA _ _ rfl rfl).1,
    (clean_copy_setArr s A hA _ _ rfl rfl).1,
    (clean_copy_setArr s A hA _ _ rfl rfl).1,
    (clean_pow s A hA _).1,
    hpresAdd.1 _ hA.1, hpresAdd.1 _ hB.1,
    fun a ha => hpresAdd.2 a (hA.2 a ha),
    fun a ha => hpresAdd.2 a (hB.2 a ha)⟩
  · rw [hval]
    rfl
  · intro idx
    rw [hval]
    rfl

/-- C6 witness: the store of the two 1-D fields named A and B holding
1,2,3,4 and 10,20,30,40. -/
theorem C6_binary_arith_witness :
    ((addF S6 refA (Sum.inl refB)).1.getArr
        (addF S6 refA (Sum.inl refB)).2.matrix).shape
      = (S6.getArr refA.matrix).shape ∧
    (∀ idx : List ℕ,
      ((addF S6 refA (Sum.inl refB)).1.getArr
          (addF S6 refA (Sum.inl refB)).2.matrix).data idx
        = (S6.getArr refA.matrix).data idx + (S6.getArr refB.matrix).data idx) ∧
    (addF S6 refA (Sum.inl refB)).2.name = "A" ++ " + " ++ "B" ∧
    (addF S6 refA (Sum.inr (5 : ℚ))).2.name = "A" ∧
    disjointFrom (addF S6 refA (Sum.inl refB)).2 refA ∧
    preserved S6 (addF S6 refA (Sum.inl refB)).1 ∧
    preserved S6 (addF S6 refA (Sum.inr (5 : ℚ))).1 ∧
    preserved S6 (subF S6 refA (Sum.inl refB)).1 ∧
    preserved S6 (subF S6 refA (Sum.inr (5 : ℚ))).1 ∧
    preserved S6 (mulF S6 refA (Sum.inl refB)).1 ∧
    preserved S6 (mulF S6 refA (Sum.inr (5 : ℚ))).1 ∧
    preserved S6 (divF S6 refA (Sum.inl refB)).1 ∧
    preserved S6 (divF S6 refA (Sum.inr (5 : ℚ))).1 ∧
    preserved S6 (powF S6 refA 2).1 ∧
    (addF S6 refA (Sum.inl refB)).1.getArr refA.matrix = S6.getArr refA.matrix ∧
    (addF S6 refA (Sum.inl refB)).1.getArr refB.matrix = S6.getArr refB.matrix ∧
    (∀ a ∈ refA.axes, (addF S6 refA (Sum.inl refB)).1.getAx a = S6.getAx a) ∧
    (∀ a ∈ refB.axes, (addF S6 refA (Sum.inl refB)).1.getAx a = S6.getAx a) :=
  C6_binary_arith S6 refA refB 5 2 (by decide) (by decide) rfl

theorem except_map_ok {ε α β : Type} {fn : α → β} {e : Except ε α} {b : β}
    (h : Except.map fn e = .ok b) : ∃ a, e = .ok a ∧ b = fn a := by
  cases e with
  | error err => cases h
  | ok a =>
      refine ⟨a, rfl, ?_⟩
      cases h
      rfl

theorem fftFStep_ok {axesP : ℕ} {retAxes : List ℕ} {st : Store} {axid : ℕ}
    {st2 : Store} (h : fftFStep axesP retAxes st axid = .ok st2) :
    ∃ aid ax1, aid ∈ retAxes ∧ st2 = st.setAx aid ax1 := by
  unfold fftFStep at h
  cases hg : retAxes.get? axid with
  | none => rw [hg] at h; cases h
  | some aid =>
      rw [hg] at h
      dsimp only at h
      cases hfa : fftAxis (st.getAx aid) axid axesP with
      | error err => rw [hfa] at h; cases h
      | ok ax1 =>
          rw [hfa] at h
          cases h
          exact ⟨aid, ax1, List.get?_mem hg, rfl⟩

theorem setExtentStep_ok {f : FieldRef} {ne : List (ℚ × ℚ)} {st : Store}
    {i : ℕ} {st2 : Store} (h : setExtentStep f ne st i = .ok st2) :
    ∃ aid v, aid ∈ f.axes ∧ st2 = st.setAx aid v := by
  unfold setExtentStep at h
  cases hg : f.axes.get? i with
  | none => rw [hg] at h; dsimp only at h; cases h
  | some aid =>
      rw [hg] at h
      cases hp : ne.get? i with
      | none => rw [hp] at h; dsimp only at h; cases h
      | some pair =>
          rw [hp] at h
          dsimp only at h
          cases h
          exact ⟨aid, _, List.get?_mem hg, rfl⟩

theorem foldlM_setAx_grows {step : Store → ℕ → Except String Store} {base : Store}
    (hstep : ∀ st x st2, step st x = .ok st2 →
      ∃ aid v, base.axs.length ≤ aid ∧ st2 = st.setAx aid v) :
    ∀ (l : List ℕ) (st : Store), growsFrom st base →
      ∀ s2, l.foldlM step st = .ok s2 → growsFrom s2 base := by
  intro l
  induction l with
  | nil =>
      intro st hst s2 h
      simp only [List.foldlM, pure, Except.pure, Except.ok.injEq] at h
      rw [← h]
      exact hst
  | cons x xs ih =>
      intro st hst s2 h
      rw [List.foldlM_cons] at h
      obtain ⟨st1, h1, h2⟩ := exceptBind_ok h
      obtain ⟨aid, v, hge, rfl⟩ := hstep st x st1 h1
      exact ih (st.setAx aid v) (growsFrom_setAx hst hge v) s2 h2

theorem setExtentF_grows {s base : Store} {f : FieldRef} {ne : List (ℚ × ℚ)}
    (hids : ∀ a ∈ f.axes, base.axs.length ≤ a) (hst : growsFrom s base) :
    ∀ s2, setExtentF s f ne = .ok s2 → growsFrom s2 base := by
  intro s2 h
  unfold setExtentF at h
  by_cases hc : FieldRef.dims s f * 2 ≠ 2 * ne.length
  · rw [if_pos hc] at h
    cases h
  · rw [if_neg hc] at h
    refine foldlM_setAx_grows ?_ _ s hst s2 h
    intro st x st2 hs
    obtain ⟨aid, v, hmem, rfl⟩ := setExtentStep_ok hs
    exact ⟨aid, v, hids aid hmem, rfl⟩

theorem renameTopolar_grows {base s2 : Store} {retAxes : List ℕ}
    (hids : ∀ a ∈ retAxes, base.axs.length ≤ a) (hst : growsFrom s2 base) :
    ∀ s4, renameTopolar retAxes s2 = .ok s4 → growsFrom s4 base := by
  intro s4 h
  unfold renameTopolar at h
  cases hg0 : retAxes.get? 0 with
  | none => rw [hg0] at h; cases h
  | some a0 =>
      rw [hg0] at h
      dsimp only at h
      by_cases h0 : (Store.getAx s2 a0).name.startsWith "$k_" = true
      · rw [if_pos h0] at h
        cases hg1 : retAxes.get? 1 with
        | none => rw [hg1] at h; cases h
        | some a1 =>
            rw [hg1] at h
            dsimp only at h
            by_cases h1 : (Store.getAx s2 a1).name.startsWith "$k_" = true
            · rw [if_pos h1] at h
              cases h
              exact growsFrom_setAx
                (growsFrom_setAx hst (hids a0 (List.get?_mem hg0)) _)
                (hids a1 (List.get?_mem hg1)) _
            · rw [if_neg h1] at h
              cases h
              exact hst
      · rw [if_neg h0] at h
        cases h
        exact hst

theorem fftF_clean (s : Store) (f : FieldRef) (k0 : Option ℚ) (axes : ℕ)
    (hf : f.valid s) :
    ∀ r, fftF s f k0 axes = .ok r → cleanResult s f r := by
  intro r h
  unfold fftF at h
  by_cases hk : k0.isNone = true
  · rw [if_pos hk] at h
    cases h
  · rw [if_neg hk] at h
    by_cases hd : FieldRef.dims s f ≠ 2
    · rw [if_pos hd] at h
      cases h
    · rw [if_neg hd] at h
      obtain ⟨s2, hfold, rfl⟩ := except_map_ok h
      obtain ⟨hgrow, hmid, _, hge, hlarr, _⟩ := deepcopyF_spec s f
      have hgrow2 := growsFrom_allocArr hgrow
        (fftMat (s.getArr f.matrix) (rollAxes axes))
      have hg2 : growsFrom s2 s := by
        refine foldlM_setAx_grows ?_ (rollAxes axes) _ hgrow2 s2 hfold
        intro st x st2 hs
        obtain ⟨aid, ax1, hmem, rfl⟩ := fftFStep_ok hs
        exact ⟨aid, ax1, hge aid hmem, rfl⟩
      refine ⟨hg2.1, growsFrom_receiver hg2 hf, ?_⟩
      apply disjoint_of_fresh hf
      · show s.arrs.length ≤ (deepcopyF s f).1.arrs.length
        rw [hlarr]
        omega
      · exact hge

set_option maxHeartbeats 1000000 in
theorem topolarF_clean (s : Store) (f : FieldRef) (extent : (ℚ × ℚ) × (ℚ × ℚ))
    (shape? : Option (ℕ × ℕ)) (ao : ℚ) (hf : f.valid s) :
    ∀ r, topolarF s f extent shape? ao = .ok r → cleanResult s f r := by
  intro r h
  unfold topolarF at h
  obtain ⟨s2, hext, hrest⟩ := exceptBind_ok h
  obtain ⟨s4, hren, rfl⟩ := except_map_ok hrest
  obtain ⟨hgrow, hmid, _, hge, hlarr, _⟩ := deepcopyF_spec s f
  have hg2 : growsFrom s2 s := by
    refine setExtentF_grows ?_ ?_ s2 hext
    · exact hge
    · exact growsFrom_allocArr hgrow _
  have hg4 : growsFrom s4 s := by
    refine renameTopolar_grows ?_ hg2 s4 hren
    exact hge
  refine ⟨hg4.1, growsFrom_receiver hg4 hf, ?_⟩
  apply disjoint_of_fresh hf
  · show s.arrs.length ≤ (deepcopyF s f).1.arrs.length
    rw [hlarr]
    omega
  · exact hge

/-- C7: the non-mutating operations - fft, topolar, and the non-in-place
binary operators +, -, *, /, ** (Field or scalar operand) - leave every
pre-existing object untouched, in particular the receiver's array and axis
objects (its name and unit live on the receiver object itself, to which
these operations never write), and the returned Field references a fresh
array and fresh axis objects, sharing no mutable state with the
receiver. -/
theorem C7_nonmutating_deepcopy (s : Store) (f o : FieldRef) (c : ℚ) (z : ℤ)
    (k0 : Option ℚ) (axes : ℕ) (extent : (ℚ × ℚ) × (ℚ × ℚ))
    (shape? : Option (ℕ × ℕ)) (ao : ℚ) (hf : f.valid s) :
    cleanResult s f (addF s f (Sum.inl o)) ∧
    cleanResult s f (addF s f (Sum.inr c)) ∧
    cleanResult s f (subF s f (Sum.inl o)) ∧
    cleanResult s f (subF s f (Sum.inr c)) ∧
    cleanResult s f (mulF s f (Sum.inl o)) ∧
    cleanResult s f (mulF s f (Sum.inr c)) ∧
    cleanResult s f (divF s f (Sum.inl o)) ∧
    cleanResult s f (divF s f (Sum.inr c)) ∧
    cleanResult s f (powF s f z) ∧
    (∀ r, fftF s f k0 axes = .ok r → cleanResult s f r) ∧
    (∀ r, topolarF s f extent shape? ao = .ok r → cleanResult s f r) :=
  ⟨clean_copy_setArr s f hf _ _ rfl rfl,
   clean_copy_setArr s f hf _ _ rfl rfl,
   clean_copy_setArr s f hf _ _ rfl rfl,
   clean_copy_setArr s f hf _ _ rfl rfl,
   clean_copy_setArr s f hf _ _ rfl rfl,
   clean_copy_setArr s f hf _ _ rfl rfl,
   clean_copy_setArr s f hf _ _ rfl rfl,
   clean_copy_setArr s f hf _ _ rfl rfl,
   clean_pow s f hf _,
   fftF_clean s f k0 axes hf,
   topolarF_clean s f extent shape? ao hf⟩

/-- C7 witness: the two-field store S6; fft and topolar outcomes are
covered conditionally on success at the concrete arguments. -/
theorem C7_nonmutating_deepcopy_witness :
    cleanResult S6 refA (addF S6 refA (Sum.inl refB)) ∧
    cleanResult S6 refA (addF S6 refA (Sum.inr (5 : ℚ))) ∧
    cleanResult S6 refA (subF S6 refA (Sum.inl refB)) ∧
    cleanResult S6 refA (subF S6 refA (Sum.inr (5 : ℚ))) ∧
    cleanResult S6 refA (mulF S6 refA (Sum.inl refB)) ∧
    cleanResult S6 refA (mulF S6 refA (Sum.inr (5 : ℚ))) ∧
    cleanResult S6 refA (divF S6 refA (Sum.inl refB)) ∧
    cleanResult S6 refA (divF S6 refA (Sum.inr (5 : ℚ))) ∧
    cleanResult S6 refA (powF S6 refA 2) ∧
    (∀ r, fftF S6 refA (some 1) 1 = .ok r → cleanResult S6 refA r) ∧
    (∀ r, topolarF S6 refA ((0, 1), (0, 1)) (some (3, 3)) 0 = .ok r →
      cleanResult S6 refA r) :=
  C7_nonmutating_deepcopy S6 refA refB 5 2 (some 1) 1 ((0, 1), (0, 1))
    (some (3, 3)) 0 (by decide)

end Postpic
